import Mathlib

/-!
Shallow embedding of the zelda transport library (connection/session layer).

Server side (`src/lib.rs`): three workers over a map from peer address to a
per-peer `Connection` record — an inbound receive loop, an outbound send loop,
and a timeout sweeper.  Client side (`src/client.rs`): a single-connection
event loop multiplexing a reliable stream, an unreliable socket and an
outbound command queue.

Modelling conventions: bytes are `Nat`, payloads are `List Nat`, peer
addresses are `Nat`, and instants/durations are exact rationals `ℚ`
(`Duration::mul_f32` is modelled as exact scalar multiplication; `u16`
arithmetic is `Nat` modulo 65536).  The `rtt_timers` insertion-ordered map
(`insert` / `remove` / `pop_front` / `len`) is modelled as an association
list in insertion order, front = oldest.
-/

abbrev Payload := List Nat

abbrev Addr := Nat

/-- Wire envelope for the unreliable transport, from `src/datagram.rs`:
`rtt_seq : u16`, `rtt_ack : u16`, `payload : bytes`. -/
structure Datagram where
  rtt_seq : Nat
  rtt_ack : Nat
  payload : Payload
deriving DecidableEq

/-- Per-peer connection record, fields as used by `src/lib.rs`
(`connection.rs` itself is not under src/; the field list follows the spec's
Connection Record and the accesses in `Socket::bind`). -/
structure Connection where
  rtt_seq_local : Nat
  rtt_seq_remote : Nat
  rtt_timers : List (Nat × ℚ)
  rtt : Option ℚ
  last_interaction : ℚ
deriving DecidableEq

/-- Modelled from the spec: `connection.rs` (holding `Connection::new`) is not
under src/.  A fresh record has zeroed sequence counters, an empty timer
table, no RTT estimate, and `last_interaction` set to the creation instant. -/
def Connection.new (now : ℚ) : Connection :=
  { rtt_seq_local := 0
    rtt_seq_remote := 0
    rtt_timers := []
    rtt := none
    last_interaction := now }

/-- Value stored under key `k` in the timer table (`LinkedHashMap` lookup). -/
def findVal (m : List (Nat × ℚ)) (k : Nat) : Option ℚ :=
  (m.find? (fun p => p.1 == k)).map Prod.snd

/-- Removal of key `k` from the timer table (`rtt_timers.remove(&k)`). -/
def eraseKey (m : List (Nat × ℚ)) (k : Nat) : List (Nat × ℚ) :=
  m.filter (fun p => p.1 != k)

/-- Insertion-ordered map insert (`rtt_timers.insert(k, t)`): an existing key
is updated in place, a new key is appended at the back (newest). -/
def insertEntry (m : List (Nat × ℚ)) (k : Nat) (t : ℚ) : List (Nat × ℚ) :=
  if m.any (fun p => p.1 == k) then
    m.map (fun p => if p.1 == k then (k, t) else p)
  else
    m ++ [(k, t)]

/-- Trim loop from `src/lib.rs` lines 130-132:
`while rtt_timers.len() > capacity { rtt_timers.pop_front() }`. -/
def trimTimers (cap : Nat) (m : List (Nat × ℚ)) : List (Nat × ℚ) :=
  if _h : m.length > cap then trimTimers cap m.tail else m
termination_by m.length
decreasing_by
  simp only [List.length_tail]
  omega

/-- RTT bookkeeping on an inbound ack (`src/lib.rs` lines 73-74): remove the
entry for `ack` if present and return the elapsed time as the sample. -/
def sampleAck (now : ℚ) (m : List (Nat × ℚ)) (ack : Nat) : Option ℚ × List (Nat × ℚ) :=
  match findVal m ack with
  | some t0 => (some (now - t0), eraseKey m ack)
  | none => (none, m)

/-- Exponentially weighted RTT update (`src/lib.rs` lines 76-83):
`rtt = rtt*(1-α) + sample*α`, or the sample itself if no prior estimate. -/
def rttUpdate (alpha : ℚ) (prior : Option ℚ) (sample : ℚ) : ℚ :=
  match prior with
  | some rtt => rtt * (1 - alpha) + sample * alpha
  | none => sample

/-- RTT estimate after folding a list of samples into a prior estimate, one
`rttUpdate` per sample. -/
def rttAfter (alpha : ℚ) (prior : Option ℚ) (samples : List ℚ) : Option ℚ :=
  samples.foldl (fun r s => some (rttUpdate alpha r s)) prior

/-- Events emitted by the server-side workers (`src/event.rs`). -/
inductive ServerEvent where
  | connected (address : Addr)
  | received (address : Addr) (payload : Payload)
  | disconnected (address : Addr)
deriving DecidableEq

/-- Body of the inbound worker's `connections.alter` closure
(`src/lib.rs` lines 56-92) for one successfully parsed datagram: refresh
`last_interaction` (or create the connection and emit `Connected`), fold an
RTT sample if the ack matches an outstanding timer, record the remote
sequence, and emit `Received`. -/
def recvStep (alpha : ℚ) (now : ℚ) (conn? : Option Connection) (address : Addr)
    (dg : Datagram) : Connection × List ServerEvent :=
  let p :=
    match conn? with
    | some c => ({ c with last_interaction := now }, ([] : List ServerEvent))
    | none => (Connection.new now, [ServerEvent.connected address])
  let s := sampleAck now p.1.rtt_timers dg.rtt_ack
  let rtt' :=
    match s.1 with
    | some sample => some (rttUpdate alpha p.1.rtt sample)
    | none => p.1.rtt
  ({ p.1 with rtt_timers := s.2, rtt := rtt', rtt_seq_remote := dg.rtt_seq },
   p.2 ++ [ServerEvent.received address dg.payload])

/-- Body of the outbound worker's `connections.alter` closure
(`src/lib.rs` lines 115-141) for one `(address, payload)` command: bump
`rtt_seq_local` with u16 wraparound, register a timer for the new sequence,
trim to capacity, and build the datagram sent on the wire. -/
def sendStep (cap : Nat) (now : ℚ) (conn? : Option Connection) (address : Addr)
    (payload : Payload) : Connection × Datagram × List ServerEvent :=
  let p :=
    match conn? with
    | some c => (c, ([] : List ServerEvent))
    | none => (Connection.new now, [ServerEvent.connected address])
  let seq := (p.1.rtt_seq_local + 1) % 65536
  let timers := trimTimers cap (insertEntry p.1.rtt_timers seq now)
  ({ p.1 with rtt_seq_local := seq, rtt_timers := timers },
   { rtt_seq := seq, rtt_ack := p.1.rtt_seq_remote, payload := payload },
   p.2)

/-- One wake of the timeout sweeper (`src/lib.rs` lines 158-165):
`connections.retain` keeps a connection iff its `last_interaction` is younger
than the timeout, emitting `Disconnected` for every evicted address. -/
def sweepStep (timeout : ℚ) (now : ℚ) (table : List (Addr × Connection)) :
    List (Addr × Connection) × List ServerEvent :=
  (table.filter (fun p => decide (now - p.2.last_interaction < timeout)),
   (table.filter (fun p => decide (timeout ≤ now - p.2.last_interaction))).map
     (fun p => ServerEvent.disconnected p.1))

/-- Classified outcome of one `socket.recv_from` + `bincode::deserialize`
round in the inbound worker (both the transport and the codec are external). -/
inductive RecvOutcome where
  | recvErr (msg : String)
  | parseErr (msg : String)
  | ok (address : Addr) (dg : Datagram)

/-- Continuation behaviour of a worker loop iteration. -/
inductive WorkerStep where
  | continues (events : List ServerEvent) (logs : List String)
  | panics (msg : String)
deriving DecidableEq

def WorkerStep.isContinues : WorkerStep → Bool
  | .continues _ _ => true
  | .panics _ => false

/-- One iteration of the inbound worker loop (`src/lib.rs` lines 48-101):
a parse error is logged and skipped, a successfully parsed datagram is
processed by `recvStep`, and a receive I/O error hits the
`panic!("Encountered IO error: ...")` arm on lines 97-99. -/
def inboundStep (alpha : ℚ) (now : ℚ) (lookup : Addr → Option Connection) :
    RecvOutcome → WorkerStep
  | .recvErr msg => .panics msg
  | .parseErr msg => .continues [] [msg]
  | .ok address dg => .continues (recvStep alpha now (lookup address) address dg).2 []

/-- One iteration of the outbound worker loop (`src/lib.rs` lines 112-146)
for a received command, given the I/O result of `socket.send_to`: a send
error is logged (lines 135-138) and the worker continues either way. -/
def outboundStep (cap : Nat) (now : ℚ) (lookup : Addr → Option Connection)
    (address : Addr) (payload : Payload) (sendResult : Except String Unit) : WorkerStep :=
  let r := sendStep cap now (lookup address) address payload
  match sendResult with
  | .ok _ => .continues r.2.2 []
  | .error msg => .continues r.2.2 [msg]

/-- Delivery classes of the boundary API. -/
inductive Delivery where
  | reliable
  | unreliable
deriving DecidableEq

/-- Events surfaced by the client session (`ClientEvent` in `src/client.rs`). -/
inductive ClientEvent where
  | connected
  | received (data : Payload)
  | disconnected
deriving DecidableEq

/-- Errors of the client session (`ClientError` in `src/client.rs`): transport
I/O at setup, a reliable-channel (connection) failure, or a failed event
dispatch (`TrySendError`). -/
inductive ClientError where
  | ioErr (msg : String)
  | connection (msg : String)
  | eventDispatch
deriving DecidableEq

/-- Modelled from the spec: `receiver.rs` (the bounded inbound event channel)
is not under src/.  The channel has the configured capacity and a queue of
pending events. -/
structure EventChannel where
  capacity : Nat
  buffer : List ClientEvent
deriving DecidableEq

/-- Modelled from the spec: `receiver.rs` is not under src/.  A `try_send`
enqueues the event when there is room and otherwise fails (dispatch failure
is escalated, never blocks). -/
def trySend (ch : EventChannel) (ev : ClientEvent) : Except Unit EventChannel :=
  if ch.buffer.length < ch.capacity then
    .ok { ch with buffer := ch.buffer ++ [ev] }
  else
    .error ()

/-- Big-endian bytes of the u64 connection id (`id.to_be_bytes()`). -/
def beBytes8 (id : Nat) : List Nat :=
  [id / 2 ^ 56 % 256, id / 2 ^ 48 % 256, id / 2 ^ 40 % 256, id / 2 ^ 32 % 256,
   id / 2 ^ 24 % 256, id / 2 ^ 16 % 256, id / 2 ^ 8 % 256, id % 256]

/-- Result of the one ready select arm in an iteration of the client event
loop (`src/client.rs` lines 110-156): a reliable frame read, an unreliable
socket receive, the command stream yielding nothing (closed), or a command
of either delivery class together with the I/O result of its write. -/
inductive ClientIn where
  | tcpRead (r : Except String Payload)
  | udpRecv (r : Except String Payload)
  | cmdClosed
  | cmdReliable (data : Payload) (w : Except String Unit)
  | cmdUnreliable (data : Payload) (s : Except String Unit)

/-- Outcome of one client loop iteration: keep looping with the updated event
channel (recording datagrams sent and reliable writes made), or return from
the task with an error. -/
inductive ClientOutcome where
  | continues (ch : EventChannel) (udpOut : List Payload) (tcpOut : List Payload)
      (logs : List String)
  | failed (e : ClientError) (ch : EventChannel)
deriving DecidableEq

/-- One iteration of the client event loop (`src/client.rs` lines 110-156),
parametrised by the signing function `sgn` of the connection's key
(`connection.rs` is not under src/; per the spec `sign` is a deterministic
8-byte tag of the payload and `verify` recomputes and compares it). -/
def clientStep (sgn : Payload → Payload) (id : Nat) (ch : EventChannel) :
    ClientIn → ClientOutcome
  | .tcpRead (.ok data) =>
      match trySend ch (.received data) with
      | .ok ch' => .continues ch' [] [] []
      | .error _ => .failed .eventDispatch ch
  | .tcpRead (.error msg) =>
      match trySend ch .disconnected with
      | .ok ch' => .failed (.connection msg) ch'
      | .error _ => .failed .eventDispatch ch
  | .udpRecv (.error _) => .continues ch [] [] []
  | .udpRecv (.ok bytes) =>
      if bytes.length > 8 then
        let tag := bytes.take 8
        let data := bytes.drop 8
        if sgn data = tag then
          match trySend ch (.received data) with
          | .ok ch' => .continues ch' [] [] []
          | .error _ => .failed .eventDispatch ch
        else
          .continues ch [] [] []
      else
        .continues ch [] [] []
  | .cmdClosed => .continues ch [] [] []
  | .cmdReliable data (.ok _) => .continues ch [] [data] []
  | .cmdReliable _ (.error msg) => .continues ch [] [] [msg]
  | .cmdUnreliable data r =>
      let bytes := sgn data ++ beBytes8 id ++ data
      match r with
      | .ok _ => .continues ch [bytes] [] []
      | .error msg => .continues ch [bytes] [] [msg]

/-- Status of the client task after consuming a list of loop inputs: still
inside the infinite loop, or returned with the task's `Result`. -/
inductive TaskStatus where
  | running (ch : EventChannel)
  | returned (r : Except ClientError Unit) (ch : EventChannel)

/-- Run of the client event loop on a sequence of select-arm results: the
loop body never breaks, so the task only returns via the error paths of
`clientStep`. -/
def runClient (sgn : Payload → Payload) (id : Nat) (ch : EventChannel) :
    List ClientIn → TaskStatus
  | [] => .running ch
  | i :: rest =>
      match clientStep sgn id ch i with
      | .continues ch' _ _ _ => runClient sgn id ch' rest
      | .failed e ch' => .returned (.error e) ch'

/-! Helper lemmas. -/

theorem trimTimers_eq_drop (cap : Nat) (m : List (Nat × ℚ)) :
    trimTimers cap m = m.drop (m.length - cap) := by
  induction m using trimTimers.induct cap with
  | case1 m h ih =>
      rw [trimTimers]
      simp only [h, dite_true]
      rw [ih]
      cases m with
      | nil => simp at h
      | cons a t =>
          simp only [List.length_cons] at h
          simp only [List.tail_cons, List.length_cons]
          have hk : t.length + 1 - cap = (t.length - cap) + 1 := by omega
          rw [hk, List.drop_succ_cons]
  | case2 m h =>
      rw [trimTimers]
      simp only [h, dite_false]
      have h0 : m.length - cap = 0 := by omega
      simp [h0]

theorem findVal_eraseKey (m : List (Nat × ℚ)) (k : Nat) :
    findVal (eraseKey m k) k = none := by
  induction m with
  | nil => rfl
  | cons a t ih =>
      by_cases h : a.1 = k
      · simp only [eraseKey, List.filter_cons] at *
        simp [h, ih]
      · simp [eraseKey, findVal, List.find?_cons, h, ih]

theorem keyUnique {α β : Type} (l : List (α × β)) (a : α) (b b' : β)
    (hnodup : (l.map Prod.fst).Nodup) (h1 : (a, b) ∈ l) (h2 : (a, b') ∈ l) :
    b = b' := by
  induction l with
  | nil => cases h1
  | cons hd tl ih =>
      simp only [List.map_cons, List.nodup_cons] at hnodup
      rcases List.mem_cons.mp h1 with h1 | h1 <;>
        rcases List.mem_cons.mp h2 with h2 | h2
      · rw [← h1] at h2
        exact congrArg Prod.snd h2.symm
      · exact absurd (List.mem_map.mpr ⟨(a, b'), h2, by rw [← h1]⟩) hnodup.1
      · exact absurd (List.mem_map.mpr ⟨(a, b), h1, by rw [← h2]⟩) hnodup.1
      · exact ih hnodup.2 h1 h2

/-! Claim theorems. -/

/-- C3: after each outbound send operation (timer insert followed by the trim
loop) the timer table holds at most the configured capacity of entries, and
trimming evicts exactly the oldest entries front-first: the trimmed table is
the post-insert table with its front `length - capacity` entries dropped. -/
theorem c3_timer_capacity (cap : Nat) (now : ℚ) (conn? : Option Connection)
    (address : Addr) (payload : Payload) :
    (sendStep cap now conn? address payload).1.rtt_timers.length ≤ cap ∧
    ∀ m : List (Nat × ℚ),
      trimTimers cap m = m.drop (m.length - cap) ∧
      m.take (m.length - cap) ++ trimTimers cap m = m := by
  constructor
  · cases conn? <;>
      simp [sendStep, trimTimers_eq_drop, List.length_drop] <;> omega
  · intro m
    exact ⟨trimTimers_eq_drop cap m, by rw [trimTimers_eq_drop, List.take_append_drop]⟩

/-- C4: an RTT sample lookup returns a value exactly when the ack is an
outstanding timer entry; the returned sample is the non-negative elapsed
time, the entry is consumed so a repeated ack yields no further sample, and
an unknown ack is ignored, leaving the table untouched. -/
theorem c4_sample_single_use (now : ℚ) (m : List (Nat × ℚ)) (ack : Nat) :
    ((sampleAck now m ack).1.isSome ↔ (findVal m ack).isSome) ∧
    (∀ t0 : ℚ, findVal m ack = some t0 → t0 ≤ now →
      (sampleAck now m ack).1 = some (now - t0) ∧ 0 ≤ now - t0 ∧
      (sampleAck now (sampleAck now m ack).2 ack).1 = none) ∧
    (findVal m ack = none → sampleAck now m ack = (none, m)) := by
  refine ⟨?_, ?_, ?_⟩
  · cases h : findVal m ack <;> simp [sampleAck, h]
  · intro t0 h ht
    refine ⟨by simp [sampleAck, h], by linarith, ?_⟩
    simp [sampleAck, h, findVal_eraseKey]
  · intro h
    simp [sampleAck, h]

/-- C7 (amended): a failed send in the outbound worker is logged and the
worker continues with the next command, whereas a failed receive in the
inbound worker panics, terminating that worker. -/
theorem c7_transport_io_errors (cap : Nat) (alpha now : ℚ)
    (lookup : Addr → Option Connection) (address : Addr) (payload : Payload)
    (msg msg' : String) :
    outboundStep cap now lookup address payload (.error msg) =
      .continues (sendStep cap now (lookup address) address payload).2.2 [msg] ∧
    (outboundStep cap now lookup address payload (.error msg)).isContinues = true ∧
    inboundStep alpha now lookup (.recvErr msg') = .panics msg' := by
  exact ⟨rfl, rfl, rfl⟩

/-- C7 counterexample: a receive I/O error in the inbound worker does not
lead to the worker continuing — the iteration panics with the error. -/
theorem c7_recv_error_not_skipped :
    (inboundStep (1 / 2) 0 (fun _ => none) (.recvErr "e")).isContinues = false ∧
    inboundStep (1 / 2) 0 (fun _ => none) (.recvErr "e") = .panics "e" := by
  exact ⟨rfl, rfl⟩

theorem rttAfter_some (alpha : ℚ) (x : ℚ) (l : List ℚ) :
    rttAfter alpha (some x) l =
      some (l.foldl (fun r q => r * (1 - alpha) + q * alpha) x) := by
  induction l generalizing x with
  | nil => rfl
  | cons s rest ih =>
      simp only [rttAfter, List.foldl_cons] at *
      rw [ih]
      rfl

/-- C1: in the client's unreliable-read path a datagram is surfaced as a
`Received` event only when it is longer than 8 bytes and, after splitting
off the leading 8-byte tag, the tag verifies against the connection's
signing function on the remaining bytes; an undersized or unverified
datagram produces no event and no error — the loop simply continues with
the channel unchanged. -/
theorem c1_unreliable_read (sgn : Payload → Payload) (id : Nat)
    (ch : EventChannel) (bytes : Payload) :
    (bytes.length ≤ 8 ∨ sgn (bytes.drop 8) ≠ bytes.take 8 →
      clientStep sgn id ch (.udpRecv (.ok bytes)) = .continues ch [] [] []) ∧
    (∀ ch' u t l,
      clientStep sgn id ch (.udpRecv (.ok bytes)) = .continues ch' u t l →
      ch' ≠ ch →
      8 < bytes.length ∧ sgn (bytes.drop 8) = bytes.take 8 ∧
      ch'.buffer = ch.buffer ++ [ClientEvent.received (bytes.drop 8)]) := by
  constructor
  · intro h
    rcases h with h | h
    · have hn : ¬ bytes.length > 8 := by omega
      simp [clientStep, hn]
    · by_cases hl : bytes.length > 8
      · simp [clientStep, hl, h]
      · simp [clientStep, hl]
  · intro ch' u t l hstep hne
    by_cases hl : bytes.length > 8
    · by_cases hv : sgn (bytes.drop 8) = bytes.take 8
      · refine ⟨hl, hv, ?_⟩
        simp only [clientStep, hl, if_true, hv] at hstep
        cases hts : trySend ch (ClientEvent.received (bytes.drop 8)) with
        | ok ch2 =>
            rw [hts] at hstep
            cases hstep
            simp only [trySend] at hts
            by_cases hroom : ch.buffer.length < ch.capacity
            · simp only [hroom, if_true] at hts
              cases hts
              rfl
            · simp [hroom] at hts
        | error e =>
            rw [hts] at hstep
            cases hstep
      · simp only [clientStep, hl, if_true, hv, if_false] at hstep
        cases hstep
        exact absurd rfl hne
    · simp only [clientStep, hl, if_false] at hstep
      cases hstep
      exact absurd rfl hne

/-- C1 witness: a 3-byte datagram (undersized) is dropped with no event and
no error. -/
theorem c1_unreliable_read_witness :
    clientStep (fun _ => List.replicate 8 0) 7 ⟨4, []⟩ (.udpRecv (.ok [1, 2, 3])) =
      .continues ⟨4, []⟩ [] [] [] :=
  (c1_unreliable_read (fun _ => List.replicate 8 0) 7 ⟨4, []⟩ [1, 2, 3]).1
    (Or.inl (by norm_num))

/-- C2: when an inbound datagram's ack hits an outstanding timer entry, the
entry is removed and the elapsed time since it was recorded becomes the RTT
sample whose fold into the estimate is exactly `rtt*(1-α) + sample*α` with a
prior estimate and the sample itself without one; consequently after the
first sample the estimate equals that sample and after further samples it
equals the exponentially weighted recursion with factor α. -/
theorem c2_rtt_estimation (alpha now : ℚ) (conn : Connection) (address : Addr)
    (dg : Datagram) (t0 : ℚ) :
    (findVal conn.rtt_timers dg.rtt_ack = some t0 →
      (recvStep alpha now (some conn) address dg).1.rtt =
        some (rttUpdate alpha conn.rtt (now - t0)) ∧
      (recvStep alpha now (some conn) address dg).1.rtt_timers =
        eraseKey conn.rtt_timers dg.rtt_ack) ∧
    (∀ r s : ℚ, rttUpdate alpha (some r) s = r * (1 - alpha) + s * alpha ∧
      rttUpdate alpha none s = s) ∧
    (∀ (s : ℚ) (rest : List ℚ),
      rttAfter alpha none (s :: rest) =
        some (rest.foldl (fun r q => r * (1 - alpha) + q * alpha) s)) := by
  refine ⟨?_, fun r s => ⟨rfl, rfl⟩, ?_⟩
  · intro h
    constructor <;> simp [recvStep, sampleAck, h]
  · intro s rest
    have h1 : rttAfter alpha none (s :: rest) = rttAfter alpha (some s) rest := rfl
    rw [h1, rttAfter_some]

/-- C2 witness: with α = 1/2, prior estimate 4 and a timer entry recorded at
instant 3 sampled at instant 9 (sample 6), the estimate becomes
4*(1/2) + 6*(1/2) = 5, and the two-sample fold from no prior estimate gives
the recursion value. -/
theorem c2_rtt_estimation_witness :
    (recvStep (1 / 2) 9 (some ⟨0, 0, [(2, 3)], some 4, 0⟩) 0 ⟨1, 2, []⟩).1.rtt =
      some 5 ∧
    rttAfter (1 / 2) none [4, 6] = some 5 := by
  constructor
  · have h := (c2_rtt_estimation (1 / 2) 9 ⟨0, 0, [(2, 3)], some 4, 0⟩ 0 ⟨1, 2, []⟩ 3).1
      (by norm_num [findVal])
    rw [h.1]
    norm_num [rttUpdate]
  · have h := (c2_rtt_estimation (1 / 2) 9 ⟨0, 0, [(2, 3)], some 4, 0⟩ 0 ⟨1, 2, []⟩ 3).2.2 4 [6]
    rw [h]
    norm_num

/-- C5: an outbound command on an existing connection increments
`rtt_seq_local` with wraparound modulo 2^16, records a timer entry for the
new sequence at the current instant (still present after trimming, given a
positive capacity and a table within capacity), and the wire datagram
carries the new sequence, the connection's current remote sequence as ack,
and the command's payload. -/
theorem c5_outbound_send (cap : Nat) (now : ℚ) (conn : Connection)
    (address : Addr) (payload : Payload)
    (hcap : 1 ≤ cap) (hlen : conn.rtt_timers.length ≤ cap) :
    (sendStep cap now (some conn) address payload).1.rtt_seq_local =
      (conn.rtt_seq_local + 1) % 65536 ∧
    ((conn.rtt_seq_local + 1) % 65536, now) ∈
      (sendStep cap now (some conn) address payload).1.rtt_timers ∧
    (sendStep cap now (some conn) address payload).2.1 =
      { rtt_seq := (conn.rtt_seq_local + 1) % 65536,
        rtt_ack := conn.rtt_seq_remote, payload := payload } := by
  refine ⟨rfl, ?_, rfl⟩
  show ((conn.rtt_seq_local + 1) % 65536, now) ∈
    trimTimers cap (insertEntry conn.rtt_timers ((conn.rtt_seq_local + 1) % 65536) now)
  set k := (conn.rtt_seq_local + 1) % 65536 with hk
  set m := conn.rtt_timers with hm
  rw [trimTimers_eq_drop]
  by_cases hany : m.any (fun p => p.1 == k)
  · have hins : insertEntry m k now = m.map (fun p => if p.1 == k then (k, now) else p) := by
      simp [insertEntry, hany]
    rw [hins]
    have hlen2 : (m.map (fun p => if p.1 == k then (k, now) else p)).length = m.length := by
      simp
    rw [hlen2]
    have h0 : m.length - cap = 0 := by omega
    rw [h0, List.drop_zero]
    rcases List.any_eq_true.mp hany with ⟨p, hp, hpk⟩
    exact List.mem_map.mpr ⟨p, hp, by simp [hpk]⟩
  · have hfalse : m.any (fun p => p.1 == k) = false := by
      rw [Bool.eq_false_iff]
      exact hany
    have hins : insertEntry m k now = m ++ [(k, now)] := by
      simp [insertEntry, hfalse]
    rw [hins]
    have hlen2 : (m ++ [(k, now)]).length = m.length + 1 := by simp
    rw [hlen2]
    have hle : m.length + 1 - cap ≤ m.length := by omega
    rw [List.drop_append_of_le_length hle]
    exact List.mem_append_right _ (List.mem_singleton.mpr rfl)

/-- C5 witness: capacity 2, a one-entry table, local sequence 65535 wraps to
0, and the datagram echoes the remote sequence 9 with the payload. -/
theorem c5_outbound_send_witness :
    (sendStep 2 10 (some ⟨65535, 9, [(1, 0)], none, 0⟩) 0 [5]).1.rtt_seq_local = 0 ∧
    ((0 : Nat), (10 : ℚ)) ∈ (sendStep 2 10 (some ⟨65535, 9, [(1, 0)], none, 0⟩) 0 [5]).1.rtt_timers ∧
    (sendStep 2 10 (some ⟨65535, 9, [(1, 0)], none, 0⟩) 0 [5]).2.1 =
      { rtt_seq := 0, rtt_ack := 9, payload := [5] } := by
  have h := c5_outbound_send 2 10 ⟨65535, 9, [(1, 0)], none, 0⟩ 0 [5]
    (by norm_num) (by norm_num)
  norm_num at h
  exact h

/-- C6: one wake of the timeout sweeper removes every connection whose last
interaction is at least the timeout old, emitting exactly one `Disconnected`
event for its address, and retains every younger connection with no event
for it; an evicted address is absent from the table after the sweep. -/
theorem c6_timeout_sweep (timeout now : ℚ) (table : List (Addr × Connection))
    (address : Addr) (c : Connection)
    (hmem : (address, c) ∈ table) (hnodup : (table.map Prod.fst).Nodup) :
    (timeout ≤ now - c.last_interaction →
      (∀ c', (address, c') ∉ (sweepStep timeout now table).1) ∧
      (sweepStep timeout now table).2.count (ServerEvent.disconnected address) = 1) ∧
    (now - c.last_interaction < timeout →
      (address, c) ∈ (sweepStep timeout now table).1 ∧
      ServerEvent.disconnected address ∉ (sweepStep timeout now table).2) := by
  constructor
  · intro h
    constructor
    · intro c' hc'
      have hmem' : (address, c') ∈ table := List.mem_of_mem_filter hc'
      have hcc : c' = c := keyUnique table address c' c hnodup hmem' hmem
      have hcond := List.of_mem_filter hc'
      rw [hcc] at hcond
      simp only [decide_eq_true_eq] at hcond
      linarith
    · have hrw : (sweepStep timeout now table).2 =
          ((table.filter fun p => decide (timeout ≤ now - p.2.last_interaction)).map
            Prod.fst).map ServerEvent.disconnected := by
        simp only [sweepStep, List.map_map]
        rfl
      rw [hrw]
      have hinj : Function.Injective ServerEvent.disconnected := by
        intro x y hxy
        cases hxy
        rfl
      rw [List.count_map_of_injective _ _ hinj]
      apply List.count_eq_one_of_mem
      · exact List.Nodup.sublist
          (List.Sublist.map Prod.fst (List.filter_sublist table)) hnodup
      · exact List.mem_map.mpr
          ⟨(address, c),
           List.mem_filter.mpr ⟨hmem, by simp only [decide_eq_true_eq]; linarith⟩, rfl⟩
  · intro h
    constructor
    · exact List.mem_filter.mpr ⟨hmem, by simp only [decide_eq_true_eq]; linarith⟩
    · intro hbad
      rcases List.mem_map.mp hbad with ⟨p, hp, hpe⟩
      simp only [ServerEvent.disconnected.injEq] at hpe
      have hptable : (address, p.2) ∈ table := by
        rw [← hpe]
        simpa using List.mem_of_mem_filter hp
      have hpc : p.2 = c := keyUnique table address p.2 c hnodup hptable hmem
      have hcond := List.of_mem_filter hp
      rw [hpc] at hcond
      simp only [decide_eq_true_eq] at hcond
      linarith

/-- C6 witness: with timeout 5 at instant 10, a connection last heard from at
instant 2 is evicted with one `Disconnected`, and one last heard from at
instant 7 is retained with no event. -/
theorem c6_timeout_sweep_witness :
    ((∀ c', (0, c') ∉ (sweepStep 5 10 [(0, ⟨0, 0, [], none, 2⟩), (1, ⟨0, 0, [], none, 7⟩)]).1) ∧
      (sweepStep 5 10 [(0, ⟨0, 0, [], none, 2⟩), (1, ⟨0, 0, [], none, 7⟩)]).2.count
        (ServerEvent.disconnected 0) = 1) ∧
    ((1, (⟨0, 0, [], none, 7⟩ : Connection)) ∈
        (sweepStep 5 10 [(0, ⟨0, 0, [], none, 2⟩), (1, ⟨0, 0, [], none, 7⟩)]).1 ∧
      ServerEvent.disconnected 1 ∉
        (sweepStep 5 10 [(0, ⟨0, 0, [], none, 2⟩), (1, ⟨0, 0, [], none, 7⟩)]).2) := by
  constructor
  · exact (c6_timeout_sweep 5 10 [(0, ⟨0, 0, [], none, 2⟩), (1, ⟨0, 0, [], none, 7⟩)]
      0 ⟨0, 0, [], none, 2⟩ (by norm_num) (by norm_num)).1 (by norm_num)
  · exact (c6_timeout_sweep 5 10 [(0, ⟨0, 0, [], none, 2⟩), (1, ⟨0, 0, [], none, 7⟩)]
      1 ⟨0, 0, [], none, 7⟩ (by norm_num) (by norm_num)).2 (by norm_num)

/-- C8: a failed reliable read emits `Disconnected` and returns from the task
with the connection error, regardless of any later inputs, whereas a failed
reliable write is only logged and the loop continues servicing the
subsequent inputs. -/
theorem c8_reliable_failure_modes (sgn : Payload → Payload) (id : Nat)
    (ch : EventChannel) (msg : String) (data : Payload) (rest : List ClientIn)
    (hroom : ch.buffer.length < ch.capacity) :
    clientStep sgn id ch (.tcpRead (.error msg)) =
      .failed (.connection msg) ⟨ch.capacity, ch.buffer ++ [ClientEvent.disconnected]⟩ ∧
    runClient sgn id ch (.tcpRead (.error msg) :: rest) =
      .returned (.error (.connection msg))
        ⟨ch.capacity, ch.buffer ++ [ClientEvent.disconnected]⟩ ∧
    clientStep sgn id ch (.cmdReliable data (.error msg)) = .continues ch [] [] [msg] ∧
    runClient sgn id ch (.cmdReliable data (.error msg) :: rest) =
      runClient sgn id ch rest := by
  have h1 : clientStep sgn id ch (.tcpRead (.error msg)) =
      .failed (.connection msg) ⟨ch.capacity, ch.buffer ++ [ClientEvent.disconnected]⟩ := by
    simp [clientStep, trySend, hroom]
  refine ⟨h1, ?_, rfl, rfl⟩
  simp only [runClient, h1]

/-- C8 witness: on an event channel of capacity 2, a reliable-read failure
"x" enqueues `Disconnected` and returns the connection error. -/
theorem c8_reliable_failure_modes_witness :
    runClient (fun _ => List.replicate 8 0) 0 ⟨2, []⟩ [ClientIn.tcpRead (.error "x")] =
      .returned (.error (.connection "x")) ⟨2, [ClientEvent.disconnected]⟩ :=
  (c8_reliable_failure_modes (fun _ => List.replicate 8 0) 0 ⟨2, []⟩ "x" [] []
    (by norm_num)).2.1

/-- Connection state after a sequence of outbound sends to the same peer,
each processed by `sendStep` at its own instant. -/
def sendMany (cap : Nat) (address : Addr) (conn : Connection)
    (sends : List (ℚ × Payload)) : Connection :=
  sends.foldl (fun c q => (sendStep cap q.1 (some c) address q.2).1) conn

theorem sendMany_last_interaction (cap : Nat) (address : Addr) (conn : Connection)
    (sends : List (ℚ × Payload)) :
    (sendMany cap address conn sends).last_interaction = conn.last_interaction := by
  induction sends generalizing conn with
  | nil => rfl
  | cons q rest ih =>
      simp only [sendMany, List.foldl_cons] at *
      rw [ih]
      rfl

/-- C9: processing an outbound command on an existing connection changes only
`rtt_seq_local` and `rtt_timers` — the RTT estimate, remote sequence and
`last_interaction` are untouched and no event is emitted; consequently after
any sequence of outbound sends the connection's `last_interaction` is still
its last inbound instant, and a sweep once the timeout has elapsed evicts
the peer with a single `Disconnected` even while sends continued. -/
theorem c9_outbound_frame_effect (cap : Nat) (now : ℚ) (conn : Connection)
    (address : Addr) (payload : Payload) :
    (sendStep cap now (some conn) address payload).1.last_interaction =
      conn.last_interaction ∧
    (sendStep cap now (some conn) address payload).1.rtt = conn.rtt ∧
    (sendStep cap now (some conn) address payload).1.rtt_seq_remote =
      conn.rtt_seq_remote ∧
    (sendStep cap now (some conn) address payload).2.2 = [] ∧
    ∀ (sends : List (ℚ × Payload)) (timeout now' : ℚ),
      (sendMany cap address conn sends).last_interaction = conn.last_interaction ∧
      (timeout ≤ now' - conn.last_interaction →
        sweepStep timeout now' [(address, sendMany cap address conn sends)] =
          ([], [ServerEvent.disconnected address])) := by
  refine ⟨rfl, rfl, rfl, rfl, ?_⟩
  intro sends timeout now'
  have hlast := sendMany_last_interaction cap address conn sends
  refine ⟨hlast, ?_⟩
  intro h
  have h1 : decide (now' - (sendMany cap address conn sends).last_interaction < timeout)
      = false := by
    rw [hlast]
    simp only [decide_eq_false_iff_not]
    linarith
  have h2 : decide (timeout ≤ now' - (sendMany cap address conn sends).last_interaction)
      = true := by
    rw [hlast]
    simp only [decide_eq_true_eq]
    linarith
  simp only [sweepStep, List.filter_cons, List.filter_nil, List.map_cons, List.map_nil]
  simp only [h1, h2]
  simp

/-- C9 witness: a connection last heard from at instant 0, after two outbound
sends at instants 3 and 4, keeps `last_interaction` 0 and is evicted by a
sweep at instant 10 with timeout 5. -/
theorem c9_outbound_frame_effect_witness :
    (sendMany 2 0 ⟨0, 0, [], none, 0⟩ [(3, [1]), (4, [2])]).last_interaction = 0 ∧
    sweepStep 5 10 [(0, sendMany 2 0 ⟨0, 0, [], none, 0⟩ [(3, [1]), (4, [2])])] =
      ([], [ServerEvent.disconnected 0]) := by
  have h := (c9_outbound_frame_effect 2 3 ⟨0, 0, [], none, 0⟩ 0 [1]).2.2.2.2
    [(3, [1]), (4, [2])] 5 10
  exact ⟨h.1, h.2 (by norm_num)⟩

/-- C10: the client task never resolves with `Ok` — any return from the event
loop carries an error — and the outbound command stream being closed
(yielding nothing) leaves the loop running with no effects. -/
theorem c10_task_never_ok (sgn : Payload → Payload) (id : Nat) (ch : EventChannel)
    (ins : List ClientIn) :
    (∀ r ch', runClient sgn id ch ins = .returned r ch' → ∃ e, r = .error e) ∧
    clientStep sgn id ch .cmdClosed = .continues ch [] [] [] := by
  constructor
  · induction ins generalizing ch with
    | nil =>
        intro r ch' hr
        cases hr
    | cons i rest ih =>
        intro r ch' hr
        simp only [runClient] at hr
        cases hc : clientStep sgn id ch i with
        | continues ch2 u t l =>
            rw [hc] at hr
            exact ih ch2 r ch' hr
        | failed e ch2 =>
            rw [hc] at hr
            cases hr
            exact ⟨e, rfl⟩
  · rfl

/-- C10 witness: on a zero-capacity channel a reliable-read failure makes the
loop return, and the returned value is an error. -/
theorem c10_task_never_ok_witness :
    ∃ e, (Except.error ClientError.eventDispatch : Except ClientError Unit) =
      Except.error e :=
  (c10_task_never_ok (fun _ => List.replicate 8 0) 0 ⟨0, []⟩
    [ClientIn.tcpRead (.error "x")]).1 (.error .eventDispatch) ⟨0, []⟩
    (by simp [runClient, clientStep, trySend])

/-- C4 witness: ack 2 recorded at instant 3 and sampled at instant 9 returns
the non-negative sample once, and a repeated ack 2 returns nothing. -/
theorem c4_sample_single_use_witness :
    (sampleAck 9 [(2, 3)] 2).1 = some (9 - 3 : ℚ) ∧ (0 : ℚ) ≤ 9 - 3 ∧
    (sampleAck 9 (sampleAck 9 [(2, 3)] 2).2 2).1 = none :=
  (c4_sample_single_use 9 [(2, 3)] 2).2.1 3 rfl (by norm_num)
